import Mathlib

/-!
Shallow embedding of the text-extraction core of `file_extractor.py`
(narajangteo MCP server): the dispatcher `extract_text_from_bytes`, the
archive resolver `extract_from_zip` / `select_best_file_from_zip`, and the
five per-format extractors (HWP compound-binary with its olefile fallback,
HWPX, PDF, DOCX, XLSX).

Python string primitives (`strip`, `lower`, `startswith`, `endswith`,
substring `in`, `str.join`, `os.path.basename`, `pathlib.Path.suffix`) are
re-implemented over `List Char` so that every definition evaluates inside
the kernel.  External library backends (HWPLoader, olefile, pypdf,
python-docx, openpyxl, zipfile) are modelled as abstract parse results: a
`World` record supplies, for each byte buffer, the outcome the library
would produce (success payload, raised exception, or malformed-container
signal), and the extractors are translated line by line from the source on
top of those outcomes.  Exceptions are modelled with `Except`; the
temporary-file handling of `extract_from_hwp` is modelled by explicit
state passing of the set of existing files.
-/

namespace Nara

/-- Byte buffers are abstract: extractors never inspect bytes directly in the
source, they only hand them to library backends (modelled in `World`). -/
abbrev Bytes := List Nat

/-- Python `str.strip()` whitespace set (ASCII portion). -/
def isPySpace (c : Char) : Bool :=
  c == ' ' || c == '\t' || c == '\n' || c == '\r' || c == '\x0b' || c == '\x0c'

/-- Python `str.strip()`. -/
def pyStrip (s : String) : String :=
  ⟨((s.data.dropWhile isPySpace).reverse.dropWhile isPySpace).reverse⟩

/-- Python `str.lower()` (ASCII case mapping; the filenames and literals in
the source contain no non-ASCII cased letters). -/
def pyLower (s : String) : String :=
  ⟨s.data.map (fun c => if 65 ≤ c.toNat && c.toNat ≤ 90 then Char.ofNat (c.toNat + 32) else c)⟩

/-- `pat` occurs at the head of `s`. -/
def listStarts : List Char → List Char → Bool
  | _, [] => true
  | [], _ :: _ => false
  | a :: as, b :: bs => a == b && listStarts as bs

/-- Python `str.startswith`. -/
def pyStarts (s pat : String) : Bool := listStarts s.data pat.data

/-- Python `str.endswith`. -/
def pyEnds (s pat : String) : Bool := listStarts s.data.reverse pat.data.reverse

/-- `pat` occurs somewhere in `s`. -/
def containsSub : List Char → List Char → Bool
  | [], pat => pat.isEmpty
  | c :: cs, pat => listStarts (c :: cs) pat || containsSub cs pat

/-- Python substring test `pat in s`. -/
def pyIn (s pat : String) : Bool := containsSub s.data pat.data

/-- Python `os.path.basename` (posix: everything after the last '/'). -/
def basenameStr (s : String) : String :=
  ⟨(s.data.reverse.takeWhile (fun c => c != '/')).reverse⟩

/-- Name of the final path component as `pathlib.Path(p).name`: trailing
slashes are dropped first, then everything after the last '/'. -/
def pathName (p : String) : String :=
  ⟨(((p.data.reverse.dropWhile (fun c => c == '/'))).takeWhile (fun c => c != '/')).reverse⟩

/-- Index of the last '.' in a character list, if any. -/
def lastDotIdx : List Char → Option Nat
  | [] => none
  | c :: rest =>
    match lastDotIdx rest with
    | some i => some (i + 1)
    | none => if c == '.' then some 0 else none

/-- Python `pathlib.Path(p).suffix`: the extension of the final component;
empty when the last dot is the first or last character of the name. -/
def pathSuffix (p : String) : String :=
  let n := (pathName p).data
  match lastDotIdx n with
  | none => ""
  | some i => if 0 < i && i + 1 < n.length then ⟨n.drop i⟩ else ""

/-- Python `sep.join(parts)`. -/
def joinWith (sep : String) : List String → String
  | [] => ""
  | [a] => a
  | a :: b :: t => a ++ sep ++ joinWith sep (b :: t)

/-- Entry survives the hidden-file / macOS-metadata / directory filter of
`select_best_file_from_zip`. -/
def zipValid (f : String) : Bool :=
  !(pyStarts f "__MACOSX") && !(pyStarts (basenameStr f) ".") && !(pyEnds f "/")

/-- Priority 1 of `select_best_file_from_zip`: base name contains
'제안요청서' or '과업지시서'. -/
def tier1 (f : String) : Bool :=
  pyIn (basenameStr f) "제안요청서" || pyIn (basenameStr f) "과업지시서"

/-- Priority 2: lowercased name ends in `.hwp` or `.hwpx`. -/
def tier2 (f : String) : Bool :=
  pyEnds (pyLower f) ".hwp" || pyEnds (pyLower f) ".hwpx"

/-- Priority 3: lowercased name ends in `.docx` or `.pdf`. -/
def tier3 (f : String) : Bool :=
  pyEnds (pyLower f) ".docx" || pyEnds (pyLower f) ".pdf"

/-- `select_best_file_from_zip` from `file_extractor.py`: filter out hidden
and metadata entries, then return the first match of the highest non-empty
priority tier. -/
def select_best_file_from_zip (file_list : List String) : Option String :=
  let valid_files := file_list.filter zipValid
  match valid_files.find? tier1 with
  | some f => some f
  | none =>
    match valid_files.find? tier2 with
    | some f => some f
    | none => valid_files.find? tier3

/-- Outcome of opening a byte buffer with `zipfile.ZipFile`: a
`BadZipFile`, some other raised exception, or a parsed container. -/
inductive ZipParse (α : Type) where
  | badZip : ZipParse α
  | fault : String → ZipParse α
  | ok : α → ZipParse α

/-- A parsed OLE compound-binary container as seen through `olefile`:
which stream names exist, and per stream the UTF-16LE-decoded text
(decoding with `errors='ignore'` never raises) or a read fault. -/
structure OleContainer where
  hasStream : String → Bool
  readStream : String → Except Unit String

/-- Outcome of `HWPLoader(...).lazy_load()`: a raised exception or the
`page_content` strings of the yielded documents. -/
inductive LoaderOutcome where
  | raise : String → LoaderOutcome
  | docs : List String → LoaderOutcome

/-- Behaviour of the primary HWPLoader backend on one invocation:
availability flag, the temporary file's name, whether creating the
temporary file and writing the bytes into it succeed, the loader outcome,
and whether `os.unlink` on the temporary file succeeds. -/
structure HwpBackend where
  hasLoader : Bool
  createOk : Bool
  tmpName : String
  writeOk : Bool
  outcome : LoaderOutcome
  unlinkOk : Bool

/-- An XML element as walked by `ElementTree.iter()`: its direct text, its
tail text, and its children in document order. -/
inductive Xml where
  | elem : Option String → Option String → List Xml → Xml

/-- A parsed HWPX zip: entry names plus, per entry, the XML tree (or a
decode/parse fault, which the source skips with `continue`). -/
structure HwpxZip where
  names : List String
  entryData : String → Except Unit Xml

/-- A parsed DOCX document: paragraph texts and tables (rows of cell
texts), as `python-docx` exposes them. -/
structure Docx where
  paragraphs : List String
  tables : List (List (List String))

/-- A loaded XLSX workbook: worksheets in order, each a name plus rows of
cells, a cell being `None` or its stringified value (`str(cell.value)`). -/
structure Xlsx where
  sheets : List (String × List (List (Option String)))

/-- A parsed generic ZIP archive: `namelist()` plus per-entry bytes
(`zf.read` may raise on a corrupted member). -/
structure ZipArchive where
  names : List String
  entryBytes : String → Except String Bytes

/-- Everything outside the extraction code itself: which optional
libraries are importable (the capability flags resolved at import time)
and what each library backend does on a given byte buffer. -/
structure World where
  hasOlefile : Bool
  hasPypdf : Bool
  hasDocx : Bool
  hasOpenpyxl : Bool
  hwpBackend : Bytes → HwpBackend
  parseOle : Bytes → Except String OleContainer
  parseHwpx : Bytes → ZipParse HwpxZip
  parsePdf : Bytes → Except String (List (Except Unit String))
  parseDocx : Bytes → Except String Docx
  parseXlsx : Bytes → Except String Xlsx
  parseZip : Bytes → ZipParse ZipArchive

/-- Character class of the recovery regex in `_extract_from_hwp_olefile`:
Hangul syllable block, ASCII letters/digits, `\s`, and the listed
punctuation. -/
def allowedChar (c : Char) : Bool :=
  (0xAC00 ≤ c.toNat && c.toNat ≤ 0xD7A3) ||
  (97 ≤ c.toNat && c.toNat ≤ 122) ||
  (65 ≤ c.toNat && c.toNat ≤ 90) ||
  (48 ≤ c.toNat && c.toNat ≤ 57) ||
  isPySpace c ||
  [ '.', ',', '!', '?', '@', '#', '$', '%', '^', '&', '*', '(', ')', '_',
    '+', '=', '-', '[', ']', Char.ofNat 123, Char.ofNat 125, '|', ';', ':',
    Char.ofNat 39, Char.ofNat 34, '<', '>', '/', Char.ofNat 92 ].contains c

/-- Maximal runs of `allowedChar` characters, i.e. `re.findall` of the
recovery pattern; `acc` is the current run, reversed. -/
def runsAux : List Char → List Char → List (List Char)
  | [], acc => if acc.isEmpty then [] else [acc.reverse]
  | c :: cs, acc =>
    if allowedChar c then runsAux cs (c :: acc)
    else if acc.isEmpty then runsAux cs [] else acc.reverse :: runsAux cs []

/-- `re.findall(r'[...]+', decoded)` over the allowlist character class. -/
def findRuns (s : String) : List String := (runsAux s.data []).map (fun cs => ⟨cs⟩)

/-- Python `decoded.replace('\x00', '')`. -/
def stripNulls (s : String) : String := ⟨s.data.filter (fun c => c != '\x00')⟩

/-- `f'BodyText/Section{i}'`. -/
def sectionName (i : Nat) : String := "BodyText/Section" ++ toString i

/-- The `for i in range(100)` body-section loop: collect indices while the
stream exists, stop at the first missing index or when the fuel runs out. -/
def sectionLoop (present : Nat → Bool) : Nat → Nat → List Nat
  | 0, _ => []
  | fuel + 1, i => if present i then i :: sectionLoop present fuel (i + 1) else []

/-- Indices of the body-text sections the raw-stream fallback reads. -/
def bodySectionIndices (present : Nat → Bool) : List Nat := sectionLoop present 100 0

/-- The `PrvText` contribution of `_extract_from_hwp_olefile`: read the
preview stream if it exists, strip nulls, keep it when non-blank; a read
fault is swallowed (`except: pass`). -/
def olePrvParts (ole : OleContainer) : List String :=
  if ole.hasStream "PrvText" then
    match ole.readStream "PrvText" with
    | .error _ => []
    | .ok raw =>
      let d := stripNulls raw
      if pyStrip d != "" then [d] else []
  else []

/-- The body-section contribution of `_extract_from_hwp_olefile`: for each
sequentially present section, the regex runs of its decoded text; a read
fault on one section is swallowed. -/
def oleBodyParts (ole : OleContainer) : List String :=
  (bodySectionIndices (fun i => ole.hasStream (sectionName i))).flatMap
    (fun i =>
      match ole.readStream (sectionName i) with
      | .error _ => []
      | .ok d => findRuns d)

/-- `_extract_from_hwp_olefile`, given the capability flag and the result
of `olefile.OleFileIO` (whose outer `except` produces the failure text). -/
def hwpOlefileResult (hasOlefile : Bool) (parsed : Except String OleContainer) : String :=
  if !hasOlefile then "HWP extraction requires olefile or langchain-teddynote library."
  else
    match parsed with
    | .error e => "HWP extraction failed: " ++ e
    | .ok ole =>
      if ole.hasStream "EncryptedPackage" then "HWP Protected: This file is encrypted."
      else
        match olePrvParts ole ++ oleBodyParts ole with
        | [] => "HWP: Could not extract text. File may use unsupported encoding."
        | p :: ps => joinWith "\n" (p :: ps)

/-- The primary HWPLoader tier of `extract_from_hwp`, with the set of
existing files threaded through to model the temporary file: returns the
extraction result together with the final file set.  Mirrors the
`try/except/finally` of the source: the temporary path variable is only
assigned after the write succeeds, and the `finally` block unlinks the
file only when the path was assigned, swallowing unlink failures. -/
def extract_from_hwp_run (bk : HwpBackend) (fallback : String) (fs : List String) :
    String × List String :=
  if bk.hasLoader then
    if !bk.createOk then (fallback, fs)
    else
      let fs1 := bk.tmpName :: fs
      if !bk.writeOk then (fallback, fs1)
      else
        let res :=
          match bk.outcome with
          | .raise _ => fallback
          | .docs ds =>
            match ds.filter (fun s => pyStrip s != "") with
            | [] => fallback
            | p :: ps => joinWith "\n\n" (p :: ps)
        (res, if bk.unlinkOk then fs1.erase bk.tmpName else fs1)
  else (fallback, fs)

/-- `extract_from_hwp`: primary HWPLoader tier, falling back to
`_extract_from_hwp_olefile` when the loader is absent, raises, or yields
no non-blank text. -/
def extract_from_hwp (w : World) (b : Bytes) : String :=
  (extract_from_hwp_run (w.hwpBackend b) (hwpOlefileResult w.hasOlefile (w.parseOle b)) []).1

/-- One `if ...strip(): append(...strip())` step of the XML walk, applied
to a `text` or `tail` field. -/
def optTrim (o : Option String) : List String :=
  match o with
  | none => []
  | some t => if pyStrip t != "" then [pyStrip t] else []

mutual

/-- Text fragments collected by `for elem in root.iter()` from one
element: its trimmed text and tail, then its children (preorder). -/
def collectXml : Xml → List String
  | .elem t tl cs => optTrim t ++ optTrim tl ++ collectXmlList cs

/-- `collectXml` over a child list, in order. -/
def collectXmlList : List Xml → List String
  | [] => []
  | x :: xs => collectXml x ++ collectXmlList xs

end

/-- `name.startswith('Contents/section') and name.endswith('.xml')`. -/
def isSectionEntry (n : String) : Bool :=
  pyStarts n "Contents/section" && pyEnds n ".xml"

/-- Lexicographic code-point comparison of strings, as Python `sorted`
compares `str` values. -/
def lexLe : List Char → List Char → Bool
  | [], _ => true
  | _ :: _, [] => false
  | a :: as, b :: bs =>
    if a.toNat < b.toNat then true
    else if b.toNat < a.toNat then false
    else lexLe as bs

/-- `lexLe` lifted to `String`. -/
def strLeb (a b : String) : Bool := lexLe a.data b.data

/-- Insert into a `strLeb`-sorted list, keeping earlier elements first
among equals. -/
def insertSorted (x : String) : List String → List String
  | [] => [x]
  | y :: ys => if strLeb x y then x :: y :: ys else y :: insertSorted x ys

/-- Python `sorted` on strings (stable, lexicographic by code point). -/
def sortStrings : List String → List String
  | [] => []
  | x :: xs => insertSorted x (sortStrings xs)

/-- The section files of `extract_from_hwpx`, in processing order:
`sorted([...namelist() filter...])`. -/
def hwpxSectionNames (z : HwpxZip) : List String :=
  sortStrings (z.names.filter isSectionEntry)

/-- Fragments recovered from one section entry; a decode or parse failure
is skipped (`except: continue`). -/
def sectionParts (z : HwpxZip) (n : String) : List String :=
  match z.entryData n with
  | .error _ => []
  | .ok x => collectXml x

/-- `extract_from_hwpx`: open as ZIP, walk the sorted section files,
join the recovered strings with newlines. -/
def extract_from_hwpx (p : ZipParse HwpxZip) : String :=
  match p with
  | .badZip => "HWPX: Invalid file format."
  | .fault e => "HWPX extraction failed: " ++ e
  | .ok z =>
    match (hwpxSectionNames z).flatMap (sectionParts z) with
    | [] => "HWPX: No text content found in sections."
    | p :: ps => joinWith "\n" (p :: ps)

/-- The surviving page blocks of `extract_from_pdf`: `enumerate` index
threaded through, a faulting page skipped, a block kept only when the
extracted text is non-blank, marker `[Page i+1]`. -/
def pdfBlocks : List (Except Unit String) → Nat → List String
  | [], _ => []
  | p :: rest, i =>
    (match p with
     | .error _ => []
     | .ok t =>
       if pyStrip t != "" then ["[Page " ++ toString (i + 1) ++ "]\n" ++ t] else []) ++
    pdfBlocks rest (i + 1)

/-- `extract_from_pdf`. -/
def extract_from_pdf (hasPypdf : Bool) (p : Except String (List (Except Unit String))) : String :=
  if !hasPypdf then "PDF extraction requires pypdf library."
  else
    match p with
    | .error e => "PDF extraction failed: " ++ e
    | .ok pages =>
      match pdfBlocks pages 0 with
      | [] => "PDF: No extractable text found (may be image-based)."
      | p :: ps => joinWith "\n\n" (p :: ps)

/-- One table row of `extract_from_docx`: non-blank cell texts, trimmed,
joined with `' | '`; an entirely blank row contributes nothing. -/
def docxRowLine (row : List String) : Option String :=
  match row.filterMap (fun c => if pyStrip c != "" then some (pyStrip c) else none) with
  | [] => none
  | c :: cs => some (joinWith " | " (c :: cs))

/-- Collected DOCX fragments: non-blank trimmed paragraphs in order, then
the table row lines. -/
def docxParts (doc : Docx) : List String :=
  doc.paragraphs.filterMap (fun t => if pyStrip t != "" then some (pyStrip t) else none) ++
    doc.tables.flatMap (fun tb => tb.filterMap docxRowLine)

/-- `extract_from_docx`. -/
def extract_from_docx (hasDocx : Bool) (p : Except String Docx) : String :=
  if !hasDocx then "DOCX extraction requires python-docx library."
  else
    match p with
    | .error e => "DOCX extraction failed: " ++ e
    | .ok doc =>
      match docxParts doc with
      | [] => "DOCX: No text content found."
      | p :: ps => joinWith "\n" (p :: ps)

/-- One worksheet row of `extract_from_xlsx`: stringified non-null cell
values joined with `' | '`; a row with zero non-null cells is skipped. -/
def rowLine (r : List (Option String)) : Option String :=
  match r.filterMap id with
  | [] => none
  | v :: vs => some (joinWith " | " (v :: vs))

/-- Data lines of one worksheet: `iter_rows(max_row=500)` then `rowLine`. -/
def sheetLines (rows : List (List (Option String))) : List String :=
  (rows.take 500).filterMap rowLine

/-- One worksheet's output block: header plus data lines; a sheet that
contributed only its header is omitted (`len(sheet_text) > 1`). -/
def sheetBlock (name : String) (rows : List (List (Option String))) : Option String :=
  match sheetLines rows with
  | [] => none
  | l :: ls => some (joinWith "\n" (("[Sheet: " ++ name ++ "]") :: l :: ls))

/-- `extract_from_xlsx`. -/
def extract_from_xlsx (hasOpenpyxl : Bool) (p : Except String Xlsx) : String :=
  if !hasOpenpyxl then "XLSX extraction requires openpyxl library."
  else
    match p with
    | .error e => "XLSX extraction failed: " ++ e
    | .ok wb =>
      match wb.sheets.filterMap (fun s => sheetBlock s.1 s.2) with
      | [] => "XLSX: No data found."
      | b :: bs => joinWith "\n\n" (b :: bs)

/-- The inner dispatch of `extract_from_zip` on the selected entry's
lowercased extension: only the five non-archive formats are recognized;
anything else (including a nested `.zip` and `.xls`) yields the
unsupported-inner-format message. -/
def zipInnerResult (w : World) (ext : String) (ib : Bytes) : String :=
  if ext = ".hwp" then extract_from_hwp w ib
  else if ext = ".hwpx" then extract_from_hwpx (w.parseHwpx ib)
  else if ext = ".pdf" then extract_from_pdf w.hasPypdf (w.parsePdf ib)
  else if ext = ".docx" then extract_from_docx w.hasDocx (w.parseDocx ib)
  else if ext = ".xlsx" then extract_from_xlsx w.hasOpenpyxl (w.parseXlsx ib)
  else "ZIP: Unsupported inner file format: " ++ ext

/-- `extract_from_zip`: select the best entry, read it, dispatch on its
own extension, and wrap the result; the `original_url` argument is unused
in the source body. -/
def extract_from_zip (w : World) (b : Bytes) (_original_url : String) : String :=
  match w.parseZip b with
  | .badZip => "ZIP: Invalid or corrupted archive."
  | .fault e => "ZIP extraction failed: " ++ e
  | .ok z =>
    match select_best_file_from_zip z.names with
    | none =>
      "ZIP: No suitable document found. Files in archive: " ++ joinWith ", " (z.names.take 10)
    | some best =>
      match z.entryBytes best with
      | .error e => "ZIP extraction failed: " ++ e
      | .ok ib =>
        "[Extracted from ZIP: " ++ best ++ "]\n\n" ++
          zipInnerResult w (pyLower (pathSuffix best)) ib

/-- `extract_text_from_bytes`: the main dispatcher on the lowercased
extension of the declared filename. -/
def extract_text_from_bytes (w : World) (b : Bytes) (filename url : String) : String :=
  let ext := pyLower (pathSuffix filename)
  if ext = ".zip" then extract_from_zip w b url
  else if ext = ".hwp" then extract_from_hwp w b
  else if ext = ".hwpx" then extract_from_hwpx (w.parseHwpx b)
  else if ext = ".pdf" then extract_from_pdf w.hasPypdf (w.parsePdf b)
  else if ext = ".docx" then extract_from_docx w.hasDocx (w.parseDocx b)
  else if ext = ".xlsx" ∨ ext = ".xls" then extract_from_xlsx w.hasOpenpyxl (w.parseXlsx b)
  else "Unsupported file format: " ++ ext ++ ". Please check the manual link: " ++ url

/-- Does the current invocation's primary tier succeed with non-blank
text?  Exactly when it does, the olefile fallback is bypassed. -/
def loaderYieldsText (bk : HwpBackend) : Bool :=
  bk.hasLoader && bk.createOk && bk.writeOk &&
    (match bk.outcome with
     | .raise _ => false
     | .docs ds => !(ds.filter (fun s => pyStrip s != "")).isEmpty)

/-- Modelled from the spec: expected page block for the page at 0-based
position `pr.1`, used to state that markers carry the original position. -/
def pageBlockAt (pr : Nat × Except Unit String) : Option String :=
  match pr.2 with
  | .error _ => none
  | .ok t =>
    if pyStrip t != "" then some ("[Page " ++ toString (pr.1 + 1) ++ "]\n" ++ t) else none

/-- A neutral world: every backend present, every parse failing. -/
def dummyWorld : World where
  hasOlefile := true
  hasPypdf := true
  hasDocx := true
  hasOpenpyxl := true
  hwpBackend := fun _ => ⟨false, true, "", true, .docs [], true⟩
  parseOle := fun _ => .error "ole fault"
  parseHwpx := fun _ => .badZip
  parsePdf := fun _ => .error "pdf fault"
  parseDocx := fun _ => .error "docx fault"
  parseXlsx := fun _ => .error "xlsx fault"
  parseZip := fun _ => .badZip

/-- A compound-binary container carrying an `EncryptedPackage` stream. -/
def oleEnc : OleContainer where
  hasStream := fun s => s == "EncryptedPackage"
  readStream := fun _ => .error ()

/-- A primary backend whose loader succeeds with the text "secret". -/
def bkSecret : HwpBackend := ⟨true, true, "/tmp/t.hwp", true, .docs ["secret"], true⟩

/-- A primary backend whose loader raises. -/
def bkRaise : HwpBackend := ⟨true, true, "/tmp/t.hwp", true, .raise "boom", true⟩

/-- A primary backend whose write to the temporary file fails. -/
def bkLeak : HwpBackend := ⟨true, true, "/tmp/leak.hwp", false, .docs [], true⟩

/-- A primary backend where every temporary-file step succeeds. -/
def bkGood : HwpBackend := ⟨true, true, "/tmp/x.hwp", true, .docs ["t"], true⟩

/-- World for the C3 counterexample: the bytes parse to an encrypted
container, but the primary loader succeeds with text anyway. -/
def wSecret : World := { dummyWorld with
  hwpBackend := fun _ => bkSecret
  parseOle := fun _ => .ok oleEnc }

/-- World for the C3 witness: encrypted container, raising loader. -/
def wEnc : World := { dummyWorld with
  hwpBackend := fun _ => bkRaise
  parseOle := fun _ => .ok oleEnc }

/-- World for the C4 witness: a ZIP whose best entry is a nested archive
named '제안요청서.zip'. -/
def wNest : World := { dummyWorld with
  parseZip := fun _ => .ok ⟨["제안요청서.zip"], fun _ => .ok ([] : Bytes)⟩ }

/-- World for the C9 witness: a ZIP whose best entry is the tier-1
name-matched spreadsheet '제안요청서.xls'. -/
def wXls : World := { dummyWorld with
  parseZip := fun _ => .ok ⟨["제안요청서.xls"], fun _ => .ok ([] : Bytes)⟩ }

/-- HWPX container for the C6 counterexample: `section10.xml` holds "A",
`section2.xml` holds "B". -/
def hwpxDemo : HwpxZip where
  names := ["Contents/section2.xml", "Contents/section10.xml"]
  entryData := fun n =>
    if n == "Contents/section10.xml" then .ok (.elem (some "A") none [])
    else .ok (.elem (some "B") none [])

theorem str_pos_of_ne (s : String) (h : s ≠ "") : 0 < s.length := by
  cases s with
  | mk d =>
    cases d with
    | nil => exact absurd rfl h
    | cons c cs => simp [String.length]

theorem str_pos_of_bne (a : String) (h : (a != "") = true) : 0 < a.length :=
  str_pos_of_ne a (bne_iff_ne.mp h)

theorem pyStrip_empty : pyStrip "" = "" := rfl

theorem strip_pos (s : String) (h : (pyStrip s != "") = true) : 0 < (pyStrip s).length :=
  str_pos_of_bne _ h

theorem pos_of_strip_bne (s : String) (h : (pyStrip s != "") = true) : 0 < s.length := by
  refine str_pos_of_ne s (fun he => ?_)
  rw [he] at h
  exact absurd h (by decide)

theorem append_pos_left (a b : String) (h : 0 < a.length) : 0 < (a ++ b).length := by
  rw [String.length_append]
  omega

theorem joinWith_cons_pos (sep a : String) (t : List String) (h : 0 < a.length) :
    0 < (joinWith sep (a :: t)).length := by
  cases t with
  | nil => simpa [joinWith] using h
  | cons b t =>
    rw [joinWith]
    exact append_pos_left _ _ (append_pos_left a sep h)

theorem runsAux_ne_nil : ∀ (cs acc : List Char), ∀ r ∈ runsAux cs acc, r ≠ [] := by
  intro cs
  induction cs with
  | nil =>
    intro acc r hr
    cases acc with
    | nil => simp [runsAux] at hr
    | cons a as =>
      simp [runsAux] at hr
      subst hr
      simp
  | cons c cs ih =>
    intro acc r hr
    by_cases hc : allowedChar c = true
    · exact ih (c :: acc) r (by simpa [runsAux, hc] using hr)
    · cases acc with
      | nil => exact ih [] r (by simpa [runsAux, hc] using hr)
      | cons a as =>
        rw [runsAux] at hr
        simp [hc] at hr
        rcases hr with hr | hr
        · subst hr; simp
        · exact ih [] r hr

theorem findRuns_pos (s : String) : ∀ r ∈ findRuns s, 0 < r.length := by
  intro r hr
  rcases List.mem_map.mp hr with ⟨cs, hcs, rfl⟩
  have hne := runsAux_ne_nil s.data [] cs hcs
  show 0 < cs.length
  cases cs with
  | nil => exact absurd rfl hne
  | cons a as => simp

theorem optTrim_pos (o : Option String) : ∀ s ∈ optTrim o, 0 < s.length := by
  intro s hs
  cases o with
  | none => simp [optTrim] at hs
  | some t =>
    by_cases h : (pyStrip t != "") = true
    · simp [optTrim, h] at hs
      subst hs
      exact strip_pos t h
    · simp [optTrim, h] at hs

mutual

theorem collectXml_pos : ∀ (x : Xml), ∀ s ∈ collectXml x, 0 < s.length
  | .elem t tl cs => by
    intro s hs
    rw [collectXml] at hs
    rcases List.mem_append.mp hs with hs | hs
    · rcases List.mem_append.mp hs with hs | hs
      · exact optTrim_pos t s hs
      · exact optTrim_pos tl s hs
    · exact collectXmlList_pos cs s hs

theorem collectXmlList_pos : ∀ (xs : List Xml), ∀ s ∈ collectXmlList xs, 0 < s.length
  | [] => by intro s hs; simp [collectXmlList] at hs
  | x :: xs => by
    intro s hs
    rw [collectXmlList] at hs
    rcases List.mem_append.mp hs with hs | hs
    · exact collectXml_pos x s hs
    · exact collectXmlList_pos xs s hs

end

theorem olePrvParts_pos (ole : OleContainer) : ∀ s ∈ olePrvParts ole, 0 < s.length := by
  intro s hs
  rw [olePrvParts] at hs
  by_cases h1 : ole.hasStream "PrvText" = true
  · rw [if_pos h1] at hs
    cases h2 : ole.readStream "PrvText" with
    | error e => rw [h2] at hs; simp at hs
    | ok raw =>
      rw [h2] at hs
      by_cases h3 : (pyStrip (stripNulls raw) != "") = true
      · simp only [h3, if_pos] at hs
        rcases List.mem_singleton.mp hs with rfl
        exact pos_of_strip_bne _ h3
      · simp only [h3] at hs
        simp at hs
  · rw [if_neg h1] at hs
    simp at hs

theorem oleBodyParts_pos (ole : OleContainer) : ∀ s ∈ oleBodyParts ole, 0 < s.length := by
  intro s hs
  rw [oleBodyParts] at hs
  rcases List.mem_flatMap.mp hs with ⟨i, _, hi⟩
  cases h : ole.readStream (sectionName i) with
  | error e => rw [h] at hi; simp at hi
  | ok d => rw [h] at hi; exact findRuns_pos d s hi

theorem hwpOlefileResult_pos (hasO : Bool) (parsed : Except String OleContainer) :
    0 < (hwpOlefileResult hasO parsed).length := by
  rw [hwpOlefileResult.eq_def]
  split
  · decide
  · split
    · exact append_pos_left _ _ (by decide)
    · rename_i ole
      split
      · decide
      · split
        · decide
        · rename_i p ps heq
          refine joinWith_cons_pos _ _ _ ?_
          have hp : p ∈ olePrvParts ole ++ oleBodyParts ole := by
            rw [heq]; exact List.mem_cons_self p ps
          rcases List.mem_append.mp hp with hp | hp
          · exact olePrvParts_pos ole p hp
          · exact oleBodyParts_pos ole p hp

theorem extract_from_hwp_run_pos (bk : HwpBackend) (fb : String) (fs : List String)
    (h : 0 < fb.length) : 0 < ((extract_from_hwp_run bk fb fs).1).length := by
  rw [extract_from_hwp_run]
  split
  · split
    · simpa using h
    · split
      · simpa using h
      · simp only []
        split
        · simpa using h
        · split
          · simpa using h
          · rename_i p ps heq
            refine joinWith_cons_pos _ _ _ ?_
            have hp := List.mem_filter.mp (heq ▸ List.mem_cons_self p ps)
            exact pos_of_strip_bne p hp.2
  · simpa using h

theorem extract_from_hwp_pos (w : World) (b : Bytes) : 0 < (extract_from_hwp w b).length :=
  extract_from_hwp_run_pos _ _ _ (hwpOlefileResult_pos _ _)

theorem hwpx_parts_pos (z : HwpxZip) :
    ∀ s ∈ (hwpxSectionNames z).flatMap (sectionParts z), 0 < s.length := by
  intro s hs
  rcases List.mem_flatMap.mp hs with ⟨n, _, hn⟩
  rw [sectionParts] at hn
  cases h : z.entryData n with
  | error e => rw [h] at hn; simp at hn
  | ok x => rw [h] at hn; exact collectXml_pos x s hn

theorem extract_from_hwpx_pos (p : ZipParse HwpxZip) : 0 < (extract_from_hwpx p).length := by
  cases p with
  | badZip => decide
  | fault e => exact append_pos_left _ _ (by decide)
  | ok z =>
    rw [extract_from_hwpx]
    split
    · decide
    · rename_i q qs heq
      exact joinWith_cons_pos _ _ _
        (hwpx_parts_pos z q (heq ▸ List.mem_cons_self q qs))

theorem pdfBlocks_pos : ∀ (pages : List (Except Unit String)) (i : Nat),
    ∀ s ∈ pdfBlocks pages i, 0 < s.length := by
  intro pages
  induction pages with
  | nil => intro i s hs; simp [pdfBlocks] at hs
  | cons p rest ih =>
    intro i s hs
    rw [pdfBlocks.eq_def] at hs
    rcases List.mem_append.mp hs with hs | hs
    · cases p with
      | error e => simp at hs
      | ok t =>
        by_cases ht : (pyStrip t != "") = true
        · simp only [ht, if_pos] at hs
          rcases List.mem_singleton.mp hs with rfl
          exact append_pos_left _ _ (append_pos_left "[Page " _ (by decide))
        · simp only [ht] at hs
          simp at hs
    · exact ih (i + 1) s hs

theorem extract_from_pdf_pos (hasP : Bool) (p : Except String (List (Except Unit String))) :
    0 < (extract_from_pdf hasP p).length := by
  rw [extract_from_pdf.eq_def]
  split
  · decide
  · split
    · exact append_pos_left _ _ (by decide)
    · rename_i pages
      split
      · decide
      · rename_i q qs heq
        exact joinWith_cons_pos _ _ _
          (pdfBlocks_pos pages 0 q (heq ▸ List.mem_cons_self q qs))

theorem docxRowLine_pos (row : List String) (s : String) (h : docxRowLine row = some s) :
    0 < s.length := by
  rw [docxRowLine] at h
  split at h
  · exact absurd h (by simp)
  · rename_i c cs heq
    rcases Option.some.inj h with rfl
    refine joinWith_cons_pos _ _ _ ?_
    have hc : c ∈ row.filterMap
        (fun c => if pyStrip c != "" then some (pyStrip c) else none) :=
      heq ▸ List.mem_cons_self c cs
    rcases List.mem_filterMap.mp hc with ⟨t, _, ht⟩
    by_cases h3 : (pyStrip t != "") = true
    · rw [if_pos h3] at ht
      rcases Option.some.inj ht with rfl
      exact strip_pos t h3
    · rw [if_neg h3] at ht
      exact absurd ht (by simp)

theorem docxParts_pos (doc : Docx) : ∀ s ∈ docxParts doc, 0 < s.length := by
  intro s hs
  rw [docxParts] at hs
  rcases List.mem_append.mp hs with hs | hs
  · rcases List.mem_filterMap.mp hs with ⟨t, _, ht⟩
    by_cases h3 : (pyStrip t != "") = true
    · rw [if_pos h3] at ht
      rcases Option.some.inj ht with rfl
      exact strip_pos t h3
    · rw [if_neg h3] at ht
      exact absurd ht (by simp)
  · rcases List.mem_flatMap.mp hs with ⟨tb, _, htb⟩
    rcases List.mem_filterMap.mp htb with ⟨row, _, hrow⟩
    exact docxRowLine_pos row s hrow

theorem extract_from_docx_pos (hasD : Bool) (p : Except String Docx) :
    0 < (extract_from_docx hasD p).length := by
  rw [extract_from_docx.eq_def]
  split
  · decide
  · split
    · exact append_pos_left _ _ (by decide)
    · rename_i doc
      split
      · decide
      · rename_i q qs heq
        exact joinWith_cons_pos _ _ _
          (docxParts_pos doc q (heq ▸ List.mem_cons_self q qs))

theorem sheetBlock_pos (name : String) (rows : List (List (Option String))) (s : String)
    (h : sheetBlock name rows = some s) : 0 < s.length := by
  rw [sheetBlock] at h
  split at h
  · exact absurd h (by simp)
  · rcases Option.some.inj h with rfl
    exact joinWith_cons_pos _ _ _ (append_pos_left _ _ (append_pos_left _ _ (by decide)))

theorem extract_from_xlsx_pos (hasX : Bool) (p : Except String Xlsx) :
    0 < (extract_from_xlsx hasX p).length := by
  rw [extract_from_xlsx.eq_def]
  split
  · decide
  · split
    · exact append_pos_left _ _ (by decide)
    · rename_i wb
      split
      · decide
      · rename_i q qs heq
        refine joinWith_cons_pos _ _ _ ?_
        have hq : q ∈ wb.sheets.filterMap (fun s => sheetBlock s.1 s.2) :=
          heq ▸ List.mem_cons_self q qs
        rcases List.mem_filterMap.mp hq with ⟨sheet, _, hsheet⟩
        exact sheetBlock_pos sheet.1 sheet.2 q hsheet

theorem extract_from_zip_pos (w : World) (b : Bytes) (url : String) :
    0 < (extract_from_zip w b url).length := by
  rw [extract_from_zip]
  split
  · decide
  · exact append_pos_left _ _ (by decide)
  · split
    · exact append_pos_left _ _ (by decide)
    · split
      · exact append_pos_left _ _ (by decide)
      · exact append_pos_left _ _ (append_pos_left _ _ (append_pos_left _ _ (by decide)))

theorem extract_from_hwp_run_fallback (bk : HwpBackend) (fb : String) (fs : List String)
    (h : loaderYieldsText bk = false) : (extract_from_hwp_run bk fb fs).1 = fb := by
  rw [extract_from_hwp_run]
  rw [loaderYieldsText] at h
  by_cases h1 : bk.hasLoader = true
  · rw [if_pos h1]
    by_cases h2 : bk.createOk = true
    · rw [h1, h2] at h
      simp only [if_neg, Bool.not_eq_true] at *
      by_cases h3 : bk.writeOk = true
      · rw [h3] at h
        simp only [Bool.true_and] at h
        cases ho : bk.outcome with
        | raise m => simp [h2, h3, ho]
        | docs ds =>
          rw [ho] at h
          have h' : (!(ds.filter (fun s => pyStrip s != "")).isEmpty) = false := h
          have hnil : ds.filter (fun s => pyStrip s != "") = [] := by
            refine List.isEmpty_iff.mp ?_
            rcases Bool.eq_false_or_eq_true ((ds.filter (fun s => pyStrip s != "")).isEmpty)
              with he | he
            · exact he
            · rw [he] at h'; exact absurd h' (by decide)
          simp [h2, h3, ho, hnil]
      · simp [h2, h3]
    · simp [h2]
  · rw [if_neg h1]

theorem find?_append_first (p : String → Bool) :
    ∀ (as : List String) (f : String) (bs : List String),
      (∀ x ∈ as, p x = false) → p f = true →
      List.find? p (as ++ f :: bs) = some f := by
  intro as
  induction as with
  | nil =>
    intro f bs _ hf
    simpa using List.find?_cons_of_pos bs hf
  | cons a as ih =>
    intro f bs has hf
    have ha : ¬ p a = true := by
      rw [has a (List.mem_cons_self a as)]
      exact Bool.false_ne_true
    rw [List.cons_append, List.find?_cons_of_neg _ ha]
    exact ih f bs (fun x hx => has x (List.mem_cons_of_mem a hx)) hf

theorem lexLe_total : ∀ a b : List Char, lexLe a b = true ∨ lexLe b a = true := by
  intro a
  induction a with
  | nil => intro b; left; rfl
  | cons x as ih =>
    intro b
    cases b with
    | nil => right; rfl
    | cons y bs =>
      by_cases hxy : x.toNat < y.toNat
      · left; simp [lexLe, hxy]
      · by_cases hyx : y.toNat < x.toNat
        · right; simp [lexLe, hyx]
        · rcases ih bs with h | h
          · left; simp [lexLe, hxy, hyx, h]
          · right; simp [lexLe, hxy, hyx, h]

theorem lexLe_trans : ∀ a b c : List Char,
    lexLe a b = true → lexLe b c = true → lexLe a c = true := by
  intro a
  induction a with
  | nil => intro b c _ _; rfl
  | cons x as ih =>
    intro b c hab hbc
    cases b with
    | nil => exact absurd hab (by simp [lexLe])
    | cons y bs =>
      cases c with
      | nil => exact absurd hbc (by simp [lexLe])
      | cons z cs =>
        rw [lexLe] at hab hbc ⊢
        by_cases hxy : x.toNat < y.toNat
        · by_cases hyz : y.toNat < z.toNat
          · simp [show x.toNat < z.toNat by omega]
          · by_cases hzy : z.toNat < y.toNat
            · rw [if_neg hyz, if_pos hzy] at hbc
              exact absurd hbc (by simp)
            · simp [show x.toNat < z.toNat by omega]
        · by_cases hyx : y.toNat < x.toNat
          · rw [if_neg hxy, if_pos hyx] at hab
            exact absurd hab (by simp)
          · rw [if_neg hxy, if_neg hyx] at hab
            by_cases hyz : y.toNat < z.toNat
            · simp [show x.toNat < z.toNat by omega]
            · by_cases hzy : z.toNat < y.toNat
              · rw [if_neg hyz, if_pos hzy] at hbc
                exact absurd hbc (by simp)
              · rw [if_neg hyz, if_neg hzy] at hbc
                simp only [if_neg (show ¬ x.toNat < z.toNat by omega),
                  if_neg (show ¬ z.toNat < x.toNat by omega)]
                exact ih bs cs hab hbc

theorem strLeb_total (a b : String) : strLeb a b = true ∨ strLeb b a = true :=
  lexLe_total a.data b.data

theorem strLeb_trans (a b c : String) (h1 : strLeb a b = true) (h2 : strLeb b c = true) :
    strLeb a c = true :=
  lexLe_trans a.data b.data c.data h1 h2

theorem insertSorted_perm (x : String) : ∀ l : List String, (insertSorted x l).Perm (x :: l) := by
  intro l
  induction l with
  | nil => rfl
  | cons y ys ih =>
    rw [insertSorted]
    by_cases h : strLeb x y = true
    · rw [if_pos h]
    · rw [if_neg h]
      exact (ih.cons y).trans (List.Perm.swap x y ys)

theorem sortStrings_perm : ∀ l : List String, (sortStrings l).Perm l := by
  intro l
  induction l with
  | nil => rfl
  | cons x xs ih => exact (insertSorted_perm x (sortStrings xs)).trans (ih.cons x)

/-- Sortedness with respect to the Python string order. -/
def SortedLe (l : List String) : Prop := l.Pairwise (fun a b => strLeb a b = true)

theorem insertSorted_sorted (x : String) :
    ∀ l : List String, SortedLe l → SortedLe (insertSorted x l) := by
  intro l
  induction l with
  | nil => intro _; simp [insertSorted, SortedLe]
  | cons y ys ih =>
    intro hs
    rcases List.pairwise_cons.mp hs with ⟨hy, hys⟩
    rw [insertSorted]
    by_cases h : strLeb x y = true
    · rw [if_pos h]
      refine List.pairwise_cons.mpr ⟨?_, hs⟩
      intro z hz
      rcases List.mem_cons.mp hz with rfl | hz
      · exact h
      · exact strLeb_trans x y z h (hy z hz)
    · rw [if_neg h]
      refine List.pairwise_cons.mpr ⟨?_, ih hys⟩
      intro z hz
      have hz' : z = x ∨ z ∈ ys := by
        have := (insertSorted_perm x ys).mem_iff.mp hz
        simpa using this
      rcases hz' with rfl | hz'
      · rcases strLeb_total z y with h' | h'
        · exact absurd h' h
        · exact h'
      · exact hy z hz'

theorem sortStrings_sorted : ∀ l : List String, SortedLe (sortStrings l) := by
  intro l
  induction l with
  | nil => simp [sortStrings, SortedLe]
  | cons x xs ih => exact insertSorted_sorted x (sortStrings xs) ih

theorem sectionLoop_mem (present : Nat → Bool) :
    ∀ (fuel i k : Nat), k ∈ sectionLoop present fuel i ↔
      (i ≤ k ∧ k < i + fuel ∧ ∀ j, i ≤ j → j ≤ k → present j = true) := by
  intro fuel
  induction fuel with
  | zero =>
    intro i k
    rw [sectionLoop]
    constructor
    · intro h; simp at h
    · rintro ⟨h1, h2, _⟩; omega
  | succ fuel ih =>
    intro i k
    rw [sectionLoop]
    by_cases hp : present i = true
    · rw [if_pos hp]
      constructor
      · intro h
        rcases List.mem_cons.mp h with rfl | h
        · exact ⟨le_refl k, by omega, fun j hj1 hj2 => by
            have : j = k := by omega
            rwa [this]⟩
        · rcases (ih (i + 1) k).mp h with ⟨h1, h2, h3⟩
          refine ⟨by omega, by omega, fun j hj1 hj2 => ?_⟩
          rcases Nat.eq_or_lt_of_le hj1 with rfl | hlt
          · exact hp
          · exact h3 j (by omega) hj2
      · rintro ⟨h1, h2, h3⟩
        rcases Nat.eq_or_lt_of_le h1 with rfl | hlt
        · exact List.mem_cons_self _ _
        · refine List.mem_cons_of_mem _ ((ih (i + 1) k).mpr ⟨by omega, by omega, ?_⟩)
          intro j hj1 hj2
          exact h3 j (by omega) hj2
    · rw [if_neg hp]
      constructor
      · intro h; simp at h
      · rintro ⟨h1, _, h3⟩
        exact absurd (h3 i (le_refl i) h1) hp

/-- Claim C1: for every byte buffer, filename and url, the dispatcher
`extract_text_from_bytes` and every per-format extractor it calls return a
non-empty string.  In this embedding every extractor is a total function
into `String` — backend faults enter as `Except`/`ZipParse` values and are
consumed here, which is the model of "never raises or propagates an
exception; failure is represented as text". -/
theorem claimC1_dispatch_total_nonempty (w : World) (b : Bytes) (filename url : String) :
    0 < (extract_text_from_bytes w b filename url).length ∧
    0 < (extract_from_zip w b url).length ∧
    0 < (extract_from_hwp w b).length ∧
    0 < (hwpOlefileResult w.hasOlefile (w.parseOle b)).length ∧
    0 < (extract_from_hwpx (w.parseHwpx b)).length ∧
    0 < (extract_from_pdf w.hasPypdf (w.parsePdf b)).length ∧
    0 < (extract_from_docx w.hasDocx (w.parseDocx b)).length ∧
    0 < (extract_from_xlsx w.hasOpenpyxl (w.parseXlsx b)).length := by
  refine ⟨?_, extract_from_zip_pos w b url, extract_from_hwp_pos w b,
    hwpOlefileResult_pos _ _, extract_from_hwpx_pos _, extract_from_pdf_pos _ _,
    extract_from_docx_pos _ _, extract_from_xlsx_pos _ _⟩
  simp only [extract_text_from_bytes]
  split
  · exact extract_from_zip_pos w b url
  · split
    · exact extract_from_hwp_pos w b
    · split
      · exact extract_from_hwpx_pos _
      · split
        · exact extract_from_pdf_pos _ _
        · split
          · exact extract_from_docx_pos _ _
          · split
            · exact extract_from_xlsx_pos _ _
            · exact append_pos_left _ _
                (append_pos_left _ _
                  (append_pos_left "Unsupported file format: " _ (by decide)))

/-- Claim C2: archive selection is deterministic and priority-ordered.
The conjuncts state: a selected entry is always a listed, non-discarded
entry; a tier-1 match anywhere forces a tier-1 selection; with no tier-1
match a tier-2 match forces a tier-2 selection; likewise for tier 3; with
no match at all the result is `none`; and within each tier the first match
in (filtered) listing order wins. -/
theorem claimC2_selection_priority (l : List String) :
    (∀ f, select_best_file_from_zip l = some f → f ∈ l ∧ zipValid f = true) ∧
    ((∃ f ∈ l.filter zipValid, tier1 f = true) →
      ∃ g, select_best_file_from_zip l = some g ∧ tier1 g = true) ∧
    ((∀ f ∈ l.filter zipValid, tier1 f = false) →
      (∃ f ∈ l.filter zipValid, tier2 f = true) →
      ∃ g, select_best_file_from_zip l = some g ∧ tier2 g = true) ∧
    ((∀ f ∈ l.filter zipValid, tier1 f = false) →
      (∀ f ∈ l.filter zipValid, tier2 f = false) →
      (∃ f ∈ l.filter zipValid, tier3 f = true) →
      ∃ g, select_best_file_from_zip l = some g ∧ tier3 g = true) ∧
    ((∀ f ∈ l.filter zipValid, tier1 f = false ∧ tier2 f = false ∧ tier3 f = false) →
      select_best_file_from_zip l = none) ∧
    (∀ as f bs, l.filter zipValid = as ++ f :: bs → tier1 f = true →
      (∀ x ∈ as, tier1 x = false) → select_best_file_from_zip l = some f) ∧
    (∀ as f bs, l.filter zipValid = as ++ f :: bs →
      (∀ x ∈ l.filter zipValid, tier1 x = false) → tier2 f = true →
      (∀ x ∈ as, tier2 x = false) → select_best_file_from_zip l = some f) ∧
    (∀ as f bs, l.filter zipValid = as ++ f :: bs →
      (∀ x ∈ l.filter zipValid, tier1 x = false) →
      (∀ x ∈ l.filter zipValid, tier2 x = false) → tier3 f = true →
      (∀ x ∈ as, tier3 x = false) → select_best_file_from_zip l = some f) := by
  have fnone : ∀ p : String → Bool, (∀ f ∈ l.filter zipValid, p f = false) →
      (l.filter zipValid).find? p = none := by
    intro p hp
    refine List.find?_eq_none.mpr (fun x hx hpx => ?_)
    rw [hp x hx] at hpx
    exact Bool.false_ne_true hpx
  have valid_of_mem : ∀ f, f ∈ l.filter zipValid → f ∈ l ∧ zipValid f = true := by
    intro f hf
    exact List.mem_filter.mp hf
  refine ⟨?_, ?_, ?_, ?_, ?_, ?_, ?_, ?_⟩
  · intro f hsel
    rw [select_best_file_from_zip] at hsel
    cases h1 : (l.filter zipValid).find? tier1 with
    | some g =>
      rw [h1] at hsel
      cases hsel
      exact valid_of_mem f (List.mem_of_find?_eq_some h1)
    | none =>
      rw [h1] at hsel
      cases h2 : (l.filter zipValid).find? tier2 with
      | some g =>
        rw [h2] at hsel
        cases hsel
        exact valid_of_mem f (List.mem_of_find?_eq_some h2)
      | none =>
        rw [h2] at hsel
        exact valid_of_mem f (List.mem_of_find?_eq_some hsel)
  · rintro ⟨f, hf, hpf⟩
    cases h1 : (l.filter zipValid).find? tier1 with
    | some g =>
      refine ⟨g, ?_, List.find?_some h1⟩
      rw [select_best_file_from_zip, h1]
    | none => exact absurd hpf (by simpa using List.find?_eq_none.mp h1 f hf)
  · intro hno1
    rintro ⟨f, hf, hpf⟩
    have h1 := fnone tier1 hno1
    cases h2 : (l.filter zipValid).find? tier2 with
    | some g =>
      refine ⟨g, ?_, List.find?_some h2⟩
      rw [select_best_file_from_zip, h1, h2]
    | none => exact absurd hpf (by simpa using List.find?_eq_none.mp h2 f hf)
  · intro hno1 hno2
    rintro ⟨f, hf, hpf⟩
    have h1 := fnone tier1 hno1
    have h2 := fnone tier2 hno2
    cases h3 : (l.filter zipValid).find? tier3 with
    | some g =>
      refine ⟨g, ?_, List.find?_some h3⟩
      rw [select_best_file_from_zip, h1, h2, h3]
    | none => exact absurd hpf (by simpa using List.find?_eq_none.mp h3 f hf)
  · intro hall
    rw [select_best_file_from_zip,
      fnone tier1 (fun f hf => (hall f hf).1),
      fnone tier2 (fun f hf => (hall f hf).2.1),
      fnone tier3 (fun f hf => (hall f hf).2.2)]
  · intro as f bs hv hf has
    have h1 : (l.filter zipValid).find? tier1 = some f := by
      rw [hv]; exact find?_append_first tier1 as f bs has hf
    rw [select_best_file_from_zip, h1]
  · intro as f bs hv hno1 hf has
    have h1 := fnone tier1 hno1
    have h2 : (l.filter zipValid).find? tier2 = some f := by
      rw [hv]; exact find?_append_first tier2 as f bs has hf
    rw [select_best_file_from_zip, h1, h2]
  · intro as f bs hv hno1 hno2 hf has
    have h1 := fnone tier1 hno1
    have h2 := fnone tier2 hno2
    have h3 : (l.filter zipValid).find? tier3 = some f := by
      rw [hv]; exact find?_append_first tier3 as f bs has hf
    rw [select_best_file_from_zip, h1, h2, h3]

/-- Witness for C2 at a concrete listing: the tier-1 name-matched entry is
selected. -/
theorem claimC2_witness :
    ∃ g, select_best_file_from_zip ["docs/제안요청서.pdf"] = some g ∧ tier1 g = true :=
  (claimC2_selection_priority ["docs/제안요청서.pdf"]).2.1
    ⟨"docs/제안요청서.pdf", by decide, by decide⟩

/-- Counterexample to claim C3 as stated: on an input whose container has
an `EncryptedPackage` stream, `extract_from_hwp` does NOT always return
the protection sentinel — the primary HWPLoader tier runs first and, when
it yields non-blank text, that text is returned and the encryption check
of the olefile fallback is never reached. -/
theorem claimC3_counterexample :
    oleEnc.hasStream "EncryptedPackage" = true ∧
    wSecret.parseOle [] = Except.ok oleEnc ∧
    extract_from_hwp wSecret [] = "secret" ∧
    ("secret" == "HWP Protected: This file is encrypted.") = false := by
  exact ⟨by decide, rfl, by decide, by decide⟩

/-- Amended C3: the raw-stream fallback `_extract_from_hwp_olefile`
returns exactly the sentinel for every container with an
`EncryptedPackage` stream — for arbitrary `readStream`, i.e. without any
further byte decoding — and `extract_from_hwp` returns the sentinel
whenever the primary loader tier is unavailable, fails, or yields no
non-blank text. -/
theorem claimC3_amended (ole : OleContainer) (w : World) (b : Bytes)
    (henc : ole.hasStream "EncryptedPackage" = true) :
    hwpOlefileResult true (.ok ole) = "HWP Protected: This file is encrypted." ∧
    (w.hasOlefile = true → w.parseOle b = .ok ole →
      loaderYieldsText (w.hwpBackend b) = false →
      extract_from_hwp w b = "HWP Protected: This file is encrypted.") := by
  have hres : hwpOlefileResult true (.ok ole) = "HWP Protected: This file is encrypted." := by
    rw [hwpOlefileResult.eq_def]
    simp [henc]
  refine ⟨hres, fun h1 h2 h3 => ?_⟩
  rw [extract_from_hwp, extract_from_hwp_run_fallback _ _ _ h3, h1, h2, hres]

/-- Witness for the amended C3 at a concrete world with a raising
loader. -/
theorem claimC3_witness :
    extract_from_hwp wEnc [] = "HWP Protected: This file is encrypted." :=
  (claimC3_amended oleEnc wEnc [] (by decide)).2 rfl rfl (by decide)

/-- Claim C4: on a valid ZIP with a selected, readable entry, the result
is exactly the `[Extracted from ZIP: <entry>]` wrapper around the inner
dispatch on the entry's own lowercased extension; any extension outside
the five recognized non-archive formats — including a nested `.zip` —
yields the unsupported-inner-format message, so a nested archive is never
unwrapped a second time (the third conjunct holds for every inner byte
buffer, i.e. the nested archive's content is never examined). -/
theorem claimC4_zip_wrapping (w : World) (b : Bytes) (z : ZipArchive) (best : String)
    (ib : Bytes) (url : String)
    (hz : w.parseZip b = .ok z)
    (hsel : select_best_file_from_zip z.names = some best)
    (hread : z.entryBytes best = .ok ib) :
    extract_from_zip w b url =
      "[Extracted from ZIP: " ++ best ++ "]\n\n" ++
        zipInnerResult w (pyLower (pathSuffix best)) ib ∧
    (∀ e, e = pyLower (pathSuffix best) →
      e ≠ ".hwp" → e ≠ ".hwpx" → e ≠ ".pdf" → e ≠ ".docx" → e ≠ ".xlsx" →
      zipInnerResult w e ib = "ZIP: Unsupported inner file format: " ++ e) ∧
    zipInnerResult w ".zip" ib = "ZIP: Unsupported inner file format: " ++ ".zip" := by
  refine ⟨?_, ?_, ?_⟩
  · simp only [extract_from_zip, hz, hsel, hread]
  · intro e _ h1 h2 h3 h4 h5
    rw [zipInnerResult, if_neg h1, if_neg h2, if_neg h3, if_neg h4, if_neg h5]
  · rw [zipInnerResult, if_neg (by decide), if_neg (by decide), if_neg (by decide),
      if_neg (by decide), if_neg (by decide)]

/-- Witness for C4: a ZIP whose best entry is the nested archive
'제안요청서.zip' produces the wrapped unsupported-inner-format message. -/
theorem claimC4_witness :
    extract_from_zip wNest [] "" =
      "[Extracted from ZIP: 제안요청서.zip]\n\nZIP: Unsupported inner file format: .zip" := by
  have h := claimC4_zip_wrapping wNest []
    ⟨["제안요청서.zip"], fun _ => .ok ([] : Bytes)⟩ "제안요청서.zip" [] ""
    rfl (by decide) rfl
  rw [h.1, h.2.1 (pyLower (pathSuffix "제안요청서.zip")) rfl
    (by decide) (by decide) (by decide) (by decide) (by decide)]
  decide

set_option maxRecDepth 10000 in
/-- Counterexample to claim C5 as stated: with every
`BodyText/Section{i}` stream present, sections 0..100 all exist yet
section 100 is never read — the `range(100)` cap is reached before any
gap, so "decoded iff all of 0..k exist" fails at k = 100. -/
theorem claimC5_counterexample :
    bodySectionIndices (fun _ => true) = List.range 100 ∧
    (bodySectionIndices (fun _ => true)).contains 100 = false := by
  constructor
  · decide
  · decide

/-- Amended C5: a section with index `k` is read if and only if `k < 100`
and all sections with indices `0..k` exist; below the cap of 100 the
iteration is sequential and stops exactly at the first missing index. -/
theorem claimC5_amended (present : Nat → Bool) (k : Nat) :
    k ∈ bodySectionIndices present ↔ (k < 100 ∧ ∀ j, j ≤ k → present j = true) := by
  rw [bodySectionIndices]
  constructor
  · intro h
    rcases (sectionLoop_mem present 100 0 k).mp h with ⟨_, h2, h3⟩
    exact ⟨by omega, fun j hj => h3 j (Nat.zero_le j) hj⟩
  · rintro ⟨h1, h2⟩
    exact (sectionLoop_mem present 100 0 k).mpr
      ⟨Nat.zero_le k, by omega, fun j _ hj => h2 j hj⟩

/-- Witness for the amended C5 at a concrete index. -/
theorem claimC5_witness : 5 ∈ bodySectionIndices (fun _ => true) :=
  (claimC5_amended (fun _ => true) 5).mpr ⟨by omega, fun _ _ => rfl⟩

/-- Counterexample to claim C6 as stated: section files are sorted as
plain strings, not by numeric index — `Contents/section10.xml` is
processed before `Contents/section2.xml`, so the demo archive (section10
holds "A", section2 holds "B") yields "A\nB", not "B\nA". -/
theorem claimC6_counterexample :
    hwpxSectionNames hwpxDemo = ["Contents/section10.xml", "Contents/section2.xml"] ∧
    extract_from_hwpx (.ok hwpxDemo) = "A\nB" := by
  exact ⟨by decide, by decide⟩

/-- Amended C6: the matching section entries are processed sorted
lexicographically by code point on the full entry name (a permutation of
the filtered listing, sorted under the Python string order), and the
recovered strings of all sections are joined with newlines in that
order. -/
theorem claimC6_amended (z : HwpxZip) :
    SortedLe (hwpxSectionNames z) ∧
    (hwpxSectionNames z).Perm (z.names.filter isSectionEntry) ∧
    extract_from_hwpx (.ok z) =
      (match (hwpxSectionNames z).flatMap (sectionParts z) with
       | [] => "HWPX: No text content found in sections."
       | p :: ps => joinWith "\n" (p :: ps)) := by
  exact ⟨sortStrings_sorted _, sortStrings_perm _, rfl⟩

set_option maxRecDepth 10000 in
/-- Claim C7: each worksheet contributes at most its first 500 rows as
data lines (concretely, 600 populated rows yield exactly 500 lines); rows
beyond the cap are ignored entirely; a row with zero non-null cells is
skipped; a kept row is its stringified non-null values joined with
`' | '`; and a sheet whose data lines are empty is omitted (no block, not
even the header). -/
theorem claimC7_xlsx_row_cap (name : String) (rows : List (List (Option String))) :
    (sheetLines rows).length ≤ 500 ∧
    sheetLines rows = sheetLines (rows.take 500) ∧
    (∀ r : List (Option String), r.filterMap id = [] → rowLine r = none) ∧
    (∀ (r : List (Option String)) (v : String) (vs : List String),
      r.filterMap id = v :: vs → rowLine r = some (joinWith " | " (v :: vs))) ∧
    (sheetLines rows = [] → sheetBlock name rows = none) ∧
    (sheetLines (List.replicate 600 [some "x"])).length = 500 := by
  refine ⟨?_, ?_, ?_, ?_, ?_, by decide⟩
  · exact le_trans (List.length_filterMap_le _ _) (List.length_take_le 500 rows)
  · simp [sheetLines, List.take_take]
  · intro r h
    rw [rowLine, h]
  · intro r v vs h
    rw [rowLine, h]
  · intro h
    rw [sheetBlock, h]

/-- Witness for C7: a sheet whose rows all have zero non-null cells is
omitted entirely. -/
theorem claimC7_witness : sheetBlock "S" [[none], []] = none :=
  (claimC7_xlsx_row_cap "S" [[none], []]).2.2.2.2.1 (by decide)

/-- Counterexample to claim C8 as stated: when the write into the
temporary file fails, the exception is raised before the path variable is
assigned, so the `finally` block does not unlink it — the invocation
returns with the temporary file still in existence. -/
theorem claimC8_counterexample :
    bkLeak.writeOk = false ∧
    "/tmp/leak.hwp" ∈ (extract_from_hwp_run bkLeak "fb" []).2 := by
  exact ⟨rfl, by decide⟩

/-- Amended C8: the temporary file is released on every exit path —
success, empty-result fallback, and loader exception — provided the write
into it succeeded (so its path was recorded) and the deletion call itself
succeeds; cleanup failures are explicitly swallowed by the source. -/
theorem claimC8_amended (bk : HwpBackend) (fb : String) (fs : List String)
    (h0 : bk.tmpName ∉ fs) (h1 : bk.writeOk = true) (h2 : bk.unlinkOk = true) :
    bk.tmpName ∉ (extract_from_hwp_run bk fb fs).2 := by
  rw [extract_from_hwp_run]
  by_cases hl : bk.hasLoader = true
  · by_cases hc : bk.createOk = true
    · simpa [hl, hc, h1, h2, List.erase_cons_head] using h0
    · simpa [hl, hc] using h0
  · simpa [hl] using h0

/-- Witness for the amended C8: with every temporary-file step working,
no file is left behind. -/
theorem claimC8_witness : bkGood.tmpName ∉ (extract_from_hwp_run bkGood "fb" []).2 :=
  claimC8_amended bkGood "fb" [] (by simp) rfl rfl

/-- Claim C9: the inner dispatch of the archive resolver recognizes only
`.hwp`, `.hwpx`, `.pdf`, `.docx`, `.xlsx` and omits `.xls`: a selected
entry with extension `.xls` yields the wrapped unsupported-inner-format
message, even though the top-level dispatcher routes every standalone
`.xls` filename to the XLSX extractor. -/
theorem claimC9_xls_inner_unsupported (w : World) (b : Bytes) (z : ZipArchive) (best : String)
    (ib : Bytes) (url : String)
    (hz : w.parseZip b = .ok z)
    (hsel : select_best_file_from_zip z.names = some best)
    (hread : z.entryBytes best = .ok ib)
    (hext : pyLower (pathSuffix best) = ".xls") :
    extract_from_zip w b url =
      "[Extracted from ZIP: " ++ best ++ "]\n\n" ++
        "ZIP: Unsupported inner file format: " ++ ".xls" ∧
    (∀ (b2 : Bytes) (fn url2 : String), pyLower (pathSuffix fn) = ".xls" →
      extract_text_from_bytes w b2 fn url2 =
        extract_from_xlsx w.hasOpenpyxl (w.parseXlsx b2)) := by
  constructor
  · simp only [extract_from_zip, hz, hsel, hread, hext, zipInnerResult]
    rw [if_neg (by decide), if_neg (by decide), if_neg (by decide),
      if_neg (by decide), if_neg (by decide)]
    simp [String.append_assoc]
  · intro b2 fn url2 hfn
    simp only [extract_text_from_bytes, hfn]
    rw [if_neg (by decide), if_neg (by decide), if_neg (by decide),
      if_neg (by decide), if_neg (by decide), if_pos (Or.inr trivial)]

/-- Witness for C9: concrete ZIP containing '제안요청서.xls' plus a
standalone `.xls` dispatch. -/
theorem claimC9_witness :
    extract_from_zip wXls [] "" =
      "[Extracted from ZIP: 제안요청서.xls]\n\nZIP: Unsupported inner file format: .xls" ∧
    extract_text_from_bytes wXls [] "f.xls" "u" =
      extract_from_xlsx wXls.hasOpenpyxl (wXls.parseXlsx []) := by
  have h := claimC9_xls_inner_unsupported wXls []
    ⟨["제안요청서.xls"], fun _ => .ok ([] : Bytes)⟩ "제안요청서.xls" [] ""
    rfl (by decide) rfl (by decide)
  refine ⟨?_, h.2 [] "f.xls" "u" (by decide)⟩
  rw [h.1]
  decide

/-- Claim C10: the `[Page N]` marker carries each page's original
1-based position in the document, not a count of surviving pages: the
blocks equal a filterMap over the enumerated page list, so skipping a
blank or faulting page leaves the following page's original number intact
(concretely, a blank second page yields markers `[Page 1]`, `[Page 3]`). -/
theorem claimC10_page_markers :
    (∀ (pages : List (Except Unit String)) (i : Nat),
      pdfBlocks pages i = (List.enumFrom i pages).filterMap pageBlockAt) ∧
    pdfBlocks [.ok "alpha", .ok "", .ok "beta"] 0 = ["[Page 1]\nalpha", "[Page 3]\nbeta"] ∧
    extract_from_pdf true (.ok [.ok "alpha", .ok "", .ok "beta"]) =
      "[Page 1]\nalpha\n\n[Page 3]\nbeta" := by
  refine ⟨?_, by decide, by decide⟩
  intro pages
  induction pages with
  | nil => intro i; simp [pdfBlocks, List.enumFrom]
  | cons p rest ih =>
    intro i
    rw [pdfBlocks.eq_def]
    cases p with
    | error e => simp [List.enumFrom, List.filterMap_cons, pageBlockAt, ih (i + 1)]
    | ok t =>
      by_cases ht : (pyStrip t != "") = true
      · simp [List.enumFrom, List.filterMap_cons, pageBlockAt, ht, ih (i + 1)]
      · simp [List.enumFrom, List.filterMap_cons, pageBlockAt, ht, ih (i + 1)]

end Nara
